import Mathlib

/-!
Verification of the commit decision and message-construction engine of
obsidian-backup-git, a plugin that automatically commits an Obsidian vault
to a local git repository.

The development shallowly embeds:
  * `plugin/src/commit-builder.ts` — `FileDiffStat`, `buildCommitMessage`,
    `formatFileName`, `hasNetDeletions`, `categorizeFiles`,
    `buildSingleFileCommitMessage`, `buildHiddenFilesCommitMessage`;
  * `plugin/src/git-engine.ts` — `getDiffStats`, `stageAndCommit`;
  * `plugin/src/main.ts` — `filterFilesBySettings`, `performCommit`,
    `performBatchCommit`, `performIndividualCommits`.

JavaScript string primitives (`split`, `startsWith`, `includes`, `trim`,
`join`, `localeCompare`) are modelled by structurally recursive functions
over the character list of a `String`, so that every definition evaluates
inside the kernel.  `localeCompare` is modelled as the default ICU
collation it implements in the plugin's Electron host: a primary
comparison of case-folded weights with completely-ignorable characters
skipped, tiebroken by the case weights (lowercase before uppercase).
This is ASCII-accurate; in particular "a" collates before "B" and strings
differing only by ignorable characters collate equal, both unlike
codepoint order (codepoint order is kept separately, only to state the
ordering the specification claims).  `Array.prototype.sort`, stable per
the ECMAScript standard,
is modelled by Mathlib's stable `List.insertionSort`.  Asynchronous calls
to the git collaborator are modelled by an oracle (`Collab`) that fixes the
diff-stat answer and the success or thrown-error outcome of each successive
stage+commit call; the orchestrator functions return the list of observable
effects (collaborator calls and UI notices) they issue, together with the
error they propagate, instead of performing IO.
-/

/-- Lexicographic comparison of key lists, non-strict.  Used for the
collation-key comparisons of the `localeCompare` model (on `Nat` weights)
and, on `Char` keys, for the codepoint order in which the specification
states its ordering claim. -/
def lexLe {α : Type} [LinearOrder α] : List α → List α → Bool
  | [], _ => true
  | _ :: _, [] => false
  | a :: as, b :: bs => if a = b then lexLe as bs else decide (a < b)

/-- Characters the default ICU collation ignores completely (zero weight
at every level): soft hyphen and zero-width characters.  `localeCompare`
returns 0 on strings that differ only by these. -/
def isIgnorableChar (c : Char) : Bool :=
  c = '\u00AD' || c = '\u200B' || c = '\u200C' || c = '\u200D' || c = '\uFEFF'

/-- The characters of a string that carry collation weight. -/
def collatable (s : String) : List Char :=
  s.data.filter (fun c => !isIgnorableChar c)

/-- Primary collation weights of a string: ignorable characters are
skipped, an ASCII uppercase letter gets the weight of its lowercase form,
every other character weighs its codepoint.  Models the primary level of
the default ICU collation behind `String.prototype.localeCompare`, under
which "a" sorts before "B" (accents - the secondary level - are outside
the modelled ASCII fragment). -/
def primaryKey (s : String) : List Nat :=
  (collatable s).map (fun c => if c.isUpper then c.toNat + 32 else c.toNat)

/-- Case weights (the tertiary level): at equal primary weights the
default ICU collation puts lowercase before uppercase, so "ab" sorts
before "aB". -/
def caseKey (s : String) : List Nat :=
  (collatable s).map (fun c => if c.isUpper then 1 else 0)

/-- Model of `a.localeCompare(b) <= 0`: compare the primary keys
lexicographically; on a tie compare the case keys. -/
def localeLe (p q : String) : Bool :=
  if primaryKey p = primaryKey q then lexLe (caseKey p) (caseKey q)
  else lexLe (primaryKey p) (primaryKey q)

/-- Model of JavaScript `String.prototype.split` with a one-character
separator: `"a//b".split('/') = ["a", "", "b"]`, `"".split('/') = [""]`. -/
def splitChar (sep : Char) : List Char → List (List Char)
  | [] => [[]]
  | c :: cs =>
    match splitChar sep cs with
    | [] => if c = sep then [[], []] else [[c]]
    | r :: rs => if c = sep then [] :: r :: rs else (c :: r) :: rs

/-- `s.split(sep)` for a single-character separator. -/
def jsSplit (s : String) (sep : Char) : List String :=
  (splitChar sep s.data).map (fun cs => { data := cs })

/-- Model of JavaScript `String.prototype.startsWith`. -/
def jsStartsWith (s : String) (p : String) : Bool :=
  p.data.isPrefixOf s.data

/-- Substring test on character lists (model of `String.prototype.includes`). -/
def listContains (sub : List Char) : List Char → Bool
  | [] => sub.isEmpty
  | c :: t => sub.isPrefixOf (c :: t) || listContains sub t

/-- Model of JavaScript `String.prototype.includes`. -/
def jsIncludes (s : String) (sub : String) : Bool := listContains sub.data s.data

/-- Model of JavaScript `String.prototype.trim`. -/
def jsTrim (s : String) : String :=
  { data := ((s.data.dropWhile Char.isWhitespace).reverse.dropWhile Char.isWhitespace).reverse }

/-- Value of a list of decimal digit characters. -/
def digitsVal (cs : List Char) : Nat :=
  cs.foldl (fun acc c => acc * 10 + (c.toNat - '0'.toNat)) 0

/-- Model of JavaScript `parseInt(s, 10)` on the count fields of
`git diff --numstat` output, which are always plain digit strings: the value
of the leading digit run.  The `NaN` result on digit-free input is outside
the collaborator contract and is collapsed to `0`. -/
def jsParseInt (s : String) : Int :=
  Int.ofNat (digitsVal (s.data.takeWhile (fun c => c.isDigit)))

/-- `FileDiffStat` of commit-builder.ts: per-file change statistics.
JavaScript numbers holding line counts are modelled as integers. -/
structure FileDiffStat where
  path : String
  additions : Int
  deletions : Int
  netChange : Int
deriving Repr, DecidableEq

/-- `CommitMessageOptions` of commit-builder.ts (`maxFiles` defaults to 5). -/
structure CommitMessageOptions where
  files : List FileDiffStat
  maxFiles : Nat := 5

/-- `hasNetDeletions` of commit-builder.ts. -/
def hasNetDeletions (stat : FileDiffStat) : Bool := stat.netChange < 0

/-- `formatFileName` of commit-builder.ts. -/
def formatFileName (stat : FileDiffStat) : String :=
  if hasNetDeletions stat then stat.path ++ " [DELETES]" else stat.path

/-- Ordering used by `[...files].sort((a, b) => a.path.localeCompare(b.path))`:
the `localeLe` collation model applied to the paths. -/
def statLe (a b : FileDiffStat) : Prop := localeLe a.path b.path = true

instance statLe.decRel : DecidableRel statLe := fun a b =>
  inferInstanceAs (Decidable (localeLe a.path b.path = true))

/-- The sort step of the message builders: a stable sort by path
(`Array.prototype.sort` is stable). -/
def sortByPath (files : List FileDiffStat) : List FileDiffStat :=
  List.insertionSort statLe files

/-- `buildCommitMessage` of commit-builder.ts. -/
def buildCommitMessage (options : CommitMessageOptions) : String :=
  let files := options.files
  let maxFiles := options.maxFiles
  if files.length = 0 then
    "chore: update files"
  else
    let sortedFiles := sortByPath files
    let formattedFiles := sortedFiles.map formatFileName
    let fileList :=
      if formattedFiles.length ≤ maxFiles then
        String.intercalate ", " formattedFiles
      else
        let shown := formattedFiles.take maxFiles
        let remaining := formattedFiles.length - maxFiles
        String.intercalate ", " shown ++ " and " ++ toString remaining ++ " more"
    "chore: update " ++ fileList

/-- `FileGroup` of commit-builder.ts. -/
structure FileGroup where
  hidden : List FileDiffStat
  regular : List FileDiffStat
deriving Repr, DecidableEq

/-- The hidden-path test of `categorizeFiles` (and of the `never` filter in
main.ts): some `/`-delimited segment of the path starts with `.`. -/
def isHiddenPath (path : String) : Bool :=
  (jsSplit path '/').any (fun part => jsStartsWith part ".")

/-- `categorizeFiles` of commit-builder.ts: a single order-preserving pass
pushing each file onto `hidden` or `regular`. -/
def categorizeFiles : List FileDiffStat → FileGroup
  | [] => { hidden := [], regular := [] }
  | file :: rest =>
    let g := categorizeFiles rest
    if isHiddenPath file.path then
      { g with hidden := file :: g.hidden }
    else
      { g with regular := file :: g.regular }

/-- `buildSingleFileCommitMessage` of commit-builder.ts. -/
def buildSingleFileCommitMessage (stat : FileDiffStat) : String :=
  "chore: update " ++ formatFileName stat

/-- `buildHiddenFilesCommitMessage` of commit-builder.ts. -/
def buildHiddenFilesCommitMessage (files : List FileDiffStat) : String :=
  if files.length = 0 then
    "chore: update hidden files"
  else
    let sortedFiles := sortByPath files
    let formattedFiles := sortedFiles.map formatFileName
    let fileList := String.intercalate ", " formattedFiles
    "chore: update hidden files (" ++ fileList ++ ")"

/-- `GitEngineConfig`-level status model (git-engine.ts): relevant inputs of
`getDiffStats` taken from simple-git's `StatusResult`.  `tracking` is the
truthiness of `status.tracking` (whether an upstream/commit exists);
`not_added` is the list of untracked paths. -/
structure GitStatusModel where
  tracking : Bool
  not_added : List String
deriving Repr, DecidableEq

/-- The zero-count stat that `getDiffStats` pushes for untracked paths. -/
def untrackedStat (file : String) : FileDiffStat :=
  { path := file, additions := 0, deletions := 0, netChange := 0 }

/-- One line of `git diff --numstat HEAD` output, parsed as in
`getDiffStats` (git-engine.ts lines 111-134): split on tab into
"additions, deletions, path"; a '-' count field marks a binary file.
Missing fields of a short line are modelled as the empty string. -/
def parseNumstatLine (line : String) : FileDiffStat :=
  let parts := jsSplit line '\t'
  let addStr := parts.getD 0 ""
  let delStr := parts.getD 1 ""
  let path := parts.getD 2 ""
  if addStr = "-" || delStr = "-" then
    { path := path, additions := 0, deletions := 0, netChange := 0 }
  else
    let additions := jsParseInt addStr
    let deletions := jsParseInt delStr
    { path := path, additions := additions, deletions := deletions,
      netChange := additions - deletions }

/-- `GitEngine.getDiffStats` (git-engine.ts lines 82-151) as a function of
the status answer and the raw `git diff --numstat HEAD` output: with no
upstream every untracked file becomes a zero stat; otherwise the parsed
numstat lines are followed by zero stats for the untracked files. -/
def getDiffStats (status : GitStatusModel) (diffOutput : String) : List FileDiffStat :=
  if !status.tracking then
    status.not_added.map untrackedStat
  else
    let lines := (jsSplit (jsTrim diffOutput) '\n').filter (fun line => !(line = ""))
    lines.map parseNumstatLine ++ status.not_added.map untrackedStat

/-- Commands `GitEngine.stageAndCommit` issues to the git binary. -/
inductive GitCmd where
  | addAll
  | commitCmd (message : String)
deriving Repr, DecidableEq

/-- `GitEngine.stageAndCommit` (git-engine.ts lines 153-174): stage all
changes with `git add -A`, then commit with the given message.  The status
callbacks it fires are not modelled. -/
def GitEngine.stageAndCommit (message : String) : List GitCmd :=
  [GitCmd.addAll, GitCmd.commitCmd message]

/-- Model of the repository the git binary operates on: the set of paths
with pending working-tree changes, and the staging area. -/
structure RepoState where
  workingChanges : List String
  staged : List String
deriving Repr, DecidableEq

/-- Semantics of the git commands issued by `GitEngine.stageAndCommit`:
`git add -A` stages every pending working-tree change; `git commit` records
exactly the staged set (returned as the second component) and clears it. -/
def runGitCmd (r : RepoState) : GitCmd → RepoState × List String
  | GitCmd.addAll => ({ r with staged := r.workingChanges }, [])
  | GitCmd.commitCmd _ =>
    ({ workingChanges := r.workingChanges.filter (fun p => !(r.staged.contains p)),
       staged := [] }, r.staged)

/-- Run a command list, collecting the committed paths. -/
def runGitCmds (r : RepoState) : List GitCmd → RepoState × List String
  | [] => (r, [])
  | c :: cs =>
    let step := runGitCmd r c
    let rest := runGitCmds step.1 cs
    (rest.1, step.2 ++ rest.2)

/-- The `hiddenFilesHandling` setting of main.ts. -/
inductive HiddenFilesHandling where
  | group
  | separate
  | never
  | gitignoreOnly
deriving Repr, DecidableEq

/-- The `commitMode` setting of main.ts. -/
inductive CommitMode where
  | batch
  | individual
deriving Repr, DecidableEq

/-- The settings fields that the commit path of main.ts reads.  UI and timer
fields are not consumed by the functions modelled here; `debugLogging`
console output is not modelled. -/
structure Settings where
  maxFilesInCommitMessage : Nat
  commitMode : CommitMode
  hiddenFilesHandling : HiddenFilesHandling

/-- Observable effects of one orchestrator invocation: UI notices and the
stage+commit calls issued to the `GitEngine` collaborator
(`stageAndCommit`, which stages everything, and `stageAndCommitFiles`,
which names explicit paths). -/
inductive Effect where
  | notice (msg : String)
  | stageAndCommitAll (message : String)
  | stageAndCommitFiles (paths : List String) (message : String)
deriving Repr, DecidableEq

/-- Whether an effect is a stage+commit call to the collaborator. -/
def Effect.isStageCall : Effect → Bool
  | Effect.notice _ => false
  | Effect.stageAndCommitAll _ => true
  | Effect.stageAndCommitFiles _ _ => true

/-- The stage+commit calls of a trace, in order. -/
def stageCalls (effects : List Effect) : List Effect :=
  effects.filter Effect.isStageCall

/-- Oracle for the asynchronous git collaborator during one `performCommit`
invocation: the answer of `getDiffStats` (`Except.error` models a thrown
error), the `filterIgnoredFiles` filter, and the outcome of the n-th
stage+commit call issued during the invocation (`some msg` models a call
that throws an error with message `msg`; an absent entry means success). -/
structure Collab where
  getDiffStats : Except String (List FileDiffStat)
  filterIgnoredFiles : List FileDiffStat → List FileDiffStat
  stageOutcomes : List (Option String)

/-- Outcome of the n-th stage+commit call of the invocation. -/
def stageResult (collab : Collab) (n : Nat) : Option String :=
  collab.stageOutcomes.getD n none

/-- `filterFilesBySettings` (main.ts lines 311-330): `gitignore-only`
delegates to the collaborator's ignore filter; `never` drops every stat
whose path has a `/`-segment starting with `.` (the same test as
`categorizeFiles`, inlined in the source); other modes do not filter. -/
def filterFilesBySettings (collab : Collab) (settings : Settings)
    (stats : List FileDiffStat) : List FileDiffStat :=
  match settings.hiddenFilesHandling with
  | HiddenFilesHandling.gitignoreOnly => collab.filterIgnoredFiles stats
  | HiddenFilesHandling.never => stats.filter (fun stat => !isHiddenPath stat.path)
  | _ => stats

/-- `performBatchCommit` (main.ts lines 383-434).  Returns the effect trace
and the error the invocation propagates (`some msg` when a collaborator
call threw).  In `separate` mode the regular subset is committed first with
the batch message, then the hidden subset with the hidden-files message; in
every other mode one `stageAndCommit` covers everything.  An effect is
recorded for a stage+commit call even when that call throws (the call was
issued); a throw skips everything after it. -/
def performBatchCommit (collab : Collab) (settings : Settings)
    (stats : List FileDiffStat) (triggeredBy : String) : List Effect × Option String :=
  if settings.hiddenFilesHandling = HiddenFilesHandling.separate then
    let g := categorizeFiles stats
    let commitCount :=
      (if 0 < g.regular.length then 1 else 0) + (if 0 < g.hidden.length then 1 else 0)
    let doneNotice : List Effect :=
      if triggeredBy = "manual" then
        [Effect.notice ("Committed " ++ toString stats.length ++ " file(s) in " ++
          toString commitCount ++ " commit(s)")]
      else []
    if 0 < g.regular.length then
      let message := buildCommitMessage
        { files := g.regular, maxFiles := settings.maxFilesInCommitMessage }
      let eff1 := Effect.stageAndCommitFiles (g.regular.map (fun f => f.path)) message
      match stageResult collab 0 with
      | some e => ([eff1], some e)
      | none =>
        if 0 < g.hidden.length then
          let message2 := buildHiddenFilesCommitMessage g.hidden
          let eff2 := Effect.stageAndCommitFiles (g.hidden.map (fun f => f.path)) message2
          match stageResult collab 1 with
          | some e => ([eff1, eff2], some e)
          | none => ([eff1, eff2] ++ doneNotice, none)
        else ([eff1] ++ doneNotice, none)
    else
      if 0 < g.hidden.length then
        let message2 := buildHiddenFilesCommitMessage g.hidden
        let eff2 := Effect.stageAndCommitFiles (g.hidden.map (fun f => f.path)) message2
        match stageResult collab 0 with
        | some e => ([eff2], some e)
        | none => ([eff2] ++ doneNotice, none)
      else (doneNotice, none)
  else
    let message := buildCommitMessage
      { files := stats, maxFiles := settings.maxFilesInCommitMessage }
    let eff := Effect.stageAndCommitAll message
    match stageResult collab 0 with
    | some e => ([eff], some e)
    | none =>
      ([eff] ++ (if triggeredBy = "manual" then
        [Effect.notice ("Committed " ++ toString stats.length ++ " file(s)")] else []), none)

/-- The per-file commit loop of `performIndividualCommits`: one
stage+commit per stat with the single-file message, numbering the calls
from `idx`.  Returns the trace, the propagated error, and the next call
index (which is also the number of commits made so far plus `idx`). -/
def commitEach (collab : Collab) (idx : Nat) : List FileDiffStat → List Effect × Option String × Nat
  | [] => ([], none, idx)
  | stat :: rest =>
    let message := buildSingleFileCommitMessage stat
    let eff := Effect.stageAndCommitFiles [stat.path] message
    match stageResult collab idx with
    | some e => ([eff], some e, idx + 1)
    | none =>
      let r := commitEach collab (idx + 1) rest
      (eff :: r.1, r.2.1, r.2.2)

/-- `performIndividualCommits` (main.ts lines 436-484): in `separate` mode
each regular file gets its own commit, then all hidden files share one
commit with the hidden-files message; otherwise every file gets its own
commit. -/
def performIndividualCommits (collab : Collab) (settings : Settings)
    (stats : List FileDiffStat) (triggeredBy : String) : List Effect × Option String :=
  if settings.hiddenFilesHandling = HiddenFilesHandling.separate then
    let g := categorizeFiles stats
    let r := commitEach collab 0 g.regular
    match r.2.1 with
    | some e => (r.1, some e)
    | none =>
      if 0 < g.hidden.length then
        let message := buildHiddenFilesCommitMessage g.hidden
        let eff := Effect.stageAndCommitFiles (g.hidden.map (fun f => f.path)) message
        match stageResult collab r.2.2 with
        | some e => (r.1 ++ [eff], some e)
        | none =>
          (r.1 ++ [eff] ++ (if triggeredBy = "manual" then
            [Effect.notice ("Created " ++ toString (r.2.2 + 1) ++ " commit(s) for " ++
              toString stats.length ++ " file(s)")] else []), none)
      else
        (r.1 ++ (if triggeredBy = "manual" then
          [Effect.notice ("Created " ++ toString r.2.2 ++ " commit(s) for " ++
            toString stats.length ++ " file(s)")] else []), none)
  else
    let r := commitEach collab 0 stats
    match r.2.1 with
    | some e => (r.1, some e)
    | none =>
      (r.1 ++ (if triggeredBy = "manual" then
        [Effect.notice ("Created " ++ toString r.2.2 ++ " commit(s) for " ++
          toString stats.length ++ " file(s)")] else []), none)

/-- The error-classification notice of the catch block of `performCommit`
(main.ts lines 367-377). -/
def classifyCommitErrorNotice (errorMsg : String) : Effect :=
  if jsIncludes errorMsg "not a git repository" then
    Effect.notice "Git repository not initialized. Check plugin settings."
  else if jsIncludes errorMsg "permission denied" then
    Effect.notice "Permission denied. Check file permissions."
  else
    Effect.notice ("Commit failed: " ++ errorMsg)

/-- The try block of `performCommit` (main.ts lines 347-366): query diff
stats, filter by settings, bail out on an empty set, then route by commit
mode.  Returns the effect trace and the error propagated to the catch
block. -/
def performCommitBody (collab : Collab) (settings : Settings)
    (triggeredBy : String) : List Effect × Option String :=
  match collab.getDiffStats with
  | Except.error e => ([], some e)
  | Except.ok stats0 =>
    let stats := filterFilesBySettings collab settings stats0
    if stats.length = 0 then
      ((if triggeredBy = "manual" then [Effect.notice "No changes to commit"] else []), none)
    else
      match settings.commitMode with
      | CommitMode.individual => performIndividualCommits collab settings stats triggeredBy
      | CommitMode.batch => performBatchCommit collab settings stats triggeredBy

/-- The plugin state consumed and produced by `performCommit`: the
`commitInProgress` mutual-exclusion guard. -/
structure PluginState where
  commitInProgress : Bool
deriving Repr, DecidableEq

/-- `performCommit` (main.ts lines 332-381).  If the guard is set the call
returns at once (with a notice only for the manual trigger).  Otherwise the
source sets `commitInProgress = true`, runs the try block, turns a thrown
error into a classified notice in the catch block, and always clears the
guard in the finally block - so the returned state has
`commitInProgress = false`.  `engine = none` models the
`!this.gitEngine` early return. -/
def performCommit (engine : Option Collab) (settings : Settings)
    (st : PluginState) (triggeredBy : String) : PluginState × List Effect :=
  if st.commitInProgress then
    (st, if triggeredBy = "manual" then [Effect.notice "Commit already in progress"] else [])
  else
    match engine with
    | none => (st, [Effect.notice "Git engine not initialized"])
    | some collab =>
      let body := performCommitBody collab settings triggeredBy
      let errEffects : List Effect :=
        match body.2 with
        | none => []
        | some msg => [classifyCommitErrorNotice msg]
      ({ commitInProgress := false }, body.1 ++ errEffects)

theorem lexLe_total {α : Type} [LinearOrder α] :
    ∀ a b : List α, lexLe a b = true ∨ lexLe b a = true
  | [], _ => Or.inl rfl
  | _ :: _, [] => Or.inr rfl
  | a :: as, b :: bs => by
    by_cases h : a = b
    · subst h
      simpa [lexLe] using lexLe_total as bs
    · rcases lt_or_gt_of_ne h with hlt | hgt
      · exact Or.inl (by simp [lexLe, h, hlt])
      · exact Or.inr (by simp [lexLe, Ne.symm h, hgt])

theorem lexLe_trans {α : Type} [LinearOrder α] : ∀ a b c : List α,
    lexLe a b = true → lexLe b c = true → lexLe a c = true
  | [], _, _, _, _ => rfl
  | _ :: _, [], _, h, _ => by simp [lexLe] at h
  | _ :: _, _ :: _, [], _, h => by simp [lexLe] at h
  | a :: as, b :: bs, c :: cs, h₁, h₂ => by
    by_cases hab : a = b
    · subst hab
      by_cases hac : a = c
      · subst hac
        simp only [lexLe, if_pos rfl] at h₁ h₂ ⊢
        exact lexLe_trans as bs cs h₁ h₂
      · simp only [lexLe, if_pos rfl, if_neg hac] at h₂ ⊢
        exact h₂
    · by_cases hbc : b = c
      · subst hbc
        simp only [lexLe, if_neg hab] at h₁ ⊢
        exact h₁
      · simp only [lexLe, if_neg hab, if_neg hbc, decide_eq_true_eq] at h₁ h₂
        by_cases hac : a = c
        · subst hac
          exact absurd (lt_trans h₁ h₂) (lt_irrefl a)
        · simp only [lexLe, if_neg hac, decide_eq_true_eq]
          exact lt_trans h₁ h₂

theorem lexLe_antisymm {α : Type} [LinearOrder α] : ∀ a b : List α,
    lexLe a b = true → lexLe b a = true → a = b
  | [], [], _, _ => rfl
  | [], _ :: _, _, h => by simp [lexLe] at h
  | _ :: _, [], h, _ => by simp [lexLe] at h
  | a :: as, b :: bs, h₁, h₂ => by
    by_cases hab : a = b
    · subst hab
      simp only [lexLe, if_pos rfl] at h₁ h₂
      rw [lexLe_antisymm as bs h₁ h₂]
    · simp only [lexLe, if_neg hab, if_neg (Ne.symm hab), decide_eq_true_eq] at h₁ h₂
      exact absurd (lt_trans h₁ h₂) (lt_irrefl a)

theorem localeLe_total (p q : String) : localeLe p q = true ∨ localeLe q p = true := by
  unfold localeLe
  by_cases h : primaryKey p = primaryKey q
  · rw [if_pos h, if_pos h.symm]
    exact lexLe_total _ _
  · rw [if_neg h, if_neg (Ne.symm h)]
    exact lexLe_total _ _

theorem localeLe_trans (p q r : String)
    (h₁ : localeLe p q = true) (h₂ : localeLe q r = true) : localeLe p r = true := by
  unfold localeLe at h₁ h₂ ⊢
  by_cases hpq : primaryKey p = primaryKey q <;> by_cases hqr : primaryKey q = primaryKey r
  · rw [if_pos hpq] at h₁
    rw [if_pos hqr] at h₂
    rw [if_pos (hpq.trans hqr)]
    exact lexLe_trans _ _ _ h₁ h₂
  · rw [if_pos hpq] at h₁
    rw [if_neg hqr] at h₂
    have hpr : primaryKey p ≠ primaryKey r := fun h => hqr (hpq.symm.trans h)
    rw [if_neg hpr, hpq]
    exact h₂
  · rw [if_neg hpq] at h₁
    rw [if_pos hqr] at h₂
    have hpr : primaryKey p ≠ primaryKey r := fun h => hpq (h.trans hqr.symm)
    rw [if_neg hpr, ← hqr]
    exact h₁
  · rw [if_neg hpq] at h₁
    rw [if_neg hqr] at h₂
    by_cases hpr : primaryKey p = primaryKey r
    · exact absurd (lexLe_antisymm _ _ h₁ (hpr ▸ h₂)) hpq
    · rw [if_neg hpr]
      exact lexLe_trans _ _ _ h₁ h₂

instance statLe.total : IsTotal FileDiffStat statLe :=
  ⟨fun a b => localeLe_total a.path b.path⟩

instance statLe.trans : IsTrans FileDiffStat statLe :=
  ⟨fun a b c => localeLe_trans a.path b.path c.path⟩

theorem sortByPath_perm (files : List FileDiffStat) : (sortByPath files).Perm files :=
  List.perm_insertionSort statLe files

theorem sortByPath_length (files : List FileDiffStat) :
    (sortByPath files).length = files.length :=
  (sortByPath_perm files).length_eq

theorem buildCommitMessage_shape (files : List FileDiffStat) (k : Nat) (hne : files ≠ []) :
    buildCommitMessage { files := files, maxFiles := k } =
      "chore: update " ++
        (if files.length ≤ k then
          String.intercalate ", " ((sortByPath files).map formatFileName)
        else
          String.intercalate ", " (((sortByPath files).map formatFileName).take k) ++
            " and " ++ toString (files.length - k) ++ " more") := by
  have h0 : ¬ files.length = 0 := by
    simpa [List.length_eq_zero] using hne
  simp only [buildCommitMessage, h0, if_false, List.length_map, sortByPath_length]

/-- C6: `categorizeFiles` returns a partition of its input.  `hidden` and
`regular` are the order-preserving filtered sublists of the input (so every
input file lands in exactly one of them, relative order intact, and their
concatenation is a permutation of the input), and a file is placed in
`hidden` exactly when some `/`-delimited segment of its path starts with a
dot. -/
theorem categorizeFiles_partition (files : List FileDiffStat) :
    (categorizeFiles files).hidden = files.filter (fun f => isHiddenPath f.path) ∧
    (categorizeFiles files).regular = files.filter (fun f => !isHiddenPath f.path) ∧
    ((categorizeFiles files).hidden ++ (categorizeFiles files).regular).Perm files ∧
    (categorizeFiles files).hidden.Sublist files ∧
    (categorizeFiles files).regular.Sublist files := by
  have hfilters : ∀ fs : List FileDiffStat,
      (categorizeFiles fs).hidden = fs.filter (fun f => isHiddenPath f.path) ∧
      (categorizeFiles fs).regular = fs.filter (fun f => !isHiddenPath f.path) := by
    intro fs
    induction fs with
    | nil => exact ⟨rfl, rfl⟩
    | cons f rest ih =>
      by_cases h : isHiddenPath f.path
      · simp [categorizeFiles, h, ih.1, ih.2, List.filter_cons]
      · simp [categorizeFiles, h, ih.1, ih.2, List.filter_cons]
  refine ⟨(hfilters files).1, (hfilters files).2, ?_, ?_, ?_⟩
  · rw [(hfilters files).1, (hfilters files).2]
    exact List.filter_append_perm _ files
  · rw [(hfilters files).1]
    exact List.filter_sublist files
  · rw [(hfilters files).2]
    exact List.filter_sublist files

/-- C7: a formatted file name carries the " [DELETES]" suffix exactly when
`netChange < 0`; with `netChange >= 0` (in particular `= 0`) the formatted
name is the bare path; and the single-file builder embeds the formatted
name verbatim. -/
theorem formatFileName_deletes_iff (stat : FileDiffStat) :
    (formatFileName stat = stat.path ++ " [DELETES]" ↔ stat.netChange < 0) ∧
    (0 ≤ stat.netChange → formatFileName stat = stat.path) ∧
    buildSingleFileCommitMessage stat = "chore: update " ++ formatFileName stat := by
  refine ⟨⟨?_, ?_⟩, ?_, rfl⟩
  · intro h
    by_contra hneg
    push_neg at hneg
    have hbare : formatFileName stat = stat.path := by
      simp [formatFileName, hasNetDeletions, not_lt.mpr hneg]
    rw [hbare] at h
    have hlen := congrArg String.length h
    rw [String.length_append] at hlen
    have hsuf : (" [DELETES]" : String).length = 10 := rfl
    omega
  · intro h
    simp [formatFileName, hasNetDeletions, h]
  · intro h
    simp [formatFileName, hasNetDeletions, not_lt.mpr h]

/-- Witness for C7 at a concrete file with `netChange = 0`. -/
theorem formatFileName_deletes_iff_witness :
    formatFileName (FileDiffStat.mk "a.md" 3 3 0) = "a.md" :=
  (formatFileName_deletes_iff (FileDiffStat.mk "a.md" 3 3 0)).2.1 (by decide)

/-- C3: `buildCommitMessage` on the empty list is the literal
"chore: update files"; with n files and `maxFiles = k`, if n is at most k
the message lists all n sorted formatted names joined by ", ", and
otherwise it lists the first k sorted formatted names joined by ", "
followed by " and N more" with N = n - k. -/
theorem buildCommitMessage_cases (files : List FileDiffStat) (k : Nat) :
    (files = [] → buildCommitMessage { files := files, maxFiles := k } =
      "chore: update files") ∧
    (files ≠ [] → files.length ≤ k →
      buildCommitMessage { files := files, maxFiles := k } =
        "chore: update " ++
          String.intercalate ", " ((sortByPath files).map formatFileName)) ∧
    (k < files.length →
      buildCommitMessage { files := files, maxFiles := k } =
        "chore: update " ++
          String.intercalate ", " (((sortByPath files).map formatFileName).take k) ++
          " and " ++ toString (files.length - k) ++ " more") := by
  refine ⟨?_, ?_, ?_⟩
  · intro h
    subst h
    rfl
  · intro hne hle
    rw [buildCommitMessage_shape files k hne, if_pos hle]
  · intro hlt
    have hne : files ≠ [] := by
      intro h
      subst h
      simp at hlt
    rw [buildCommitMessage_shape files k hne, if_neg (not_le.mpr hlt)]
    simp [String.append_assoc]

/-- Witness for C3: the empty case, an untruncated case and a truncated
case at concrete inputs. -/
theorem buildCommitMessage_cases_witness :
    buildCommitMessage { files := [], maxFiles := 5 } = "chore: update files" ∧
    buildCommitMessage
        { files := [FileDiffStat.mk "b.md" 1 0 1, FileDiffStat.mk "a.md" 1 0 1],
          maxFiles := 5 } =
      "chore: update " ++ String.intercalate ", "
        ((sortByPath [FileDiffStat.mk "b.md" 1 0 1, FileDiffStat.mk "a.md" 1 0 1]).map
          formatFileName) ∧
    buildCommitMessage
        { files := [FileDiffStat.mk "b.md" 1 0 1, FileDiffStat.mk "a.md" 1 0 1],
          maxFiles := 1 } =
      "chore: update " ++ String.intercalate ", "
        (((sortByPath [FileDiffStat.mk "b.md" 1 0 1, FileDiffStat.mk "a.md" 1 0 1]).map
          formatFileName).take 1) ++ " and " ++ toString (2 - 1) ++ " more" :=
  ⟨(buildCommitMessage_cases [] 5).1 rfl,
   (buildCommitMessage_cases [FileDiffStat.mk "b.md" 1 0 1, FileDiffStat.mk "a.md" 1 0 1] 5).2.1
     (by decide) (by decide),
   (buildCommitMessage_cases [FileDiffStat.mk "b.md" 1 0 1, FileDiffStat.mk "a.md" 1 0 1] 1).2.2
     (by decide)⟩

/-- C8: `buildHiddenFilesCommitMessage` on the empty list is the literal
"chore: update hidden files"; on a non-empty list it wraps all sorted
formatted names (no truncation) joined by ", " in
"chore: update hidden files (...)". -/
theorem buildHiddenFilesCommitMessage_cases (files : List FileDiffStat) :
    (files = [] → buildHiddenFilesCommitMessage files = "chore: update hidden files") ∧
    (files ≠ [] → buildHiddenFilesCommitMessage files =
      "chore: update hidden files (" ++
        String.intercalate ", " ((sortByPath files).map formatFileName) ++ ")") := by
  constructor
  · intro h
    subst h
    rfl
  · intro hne
    have h0 : ¬ files.length = 0 := by
      simpa [List.length_eq_zero] using hne
    simp only [buildHiddenFilesCommitMessage, h0, if_false]

/-- Witness for C8 at the empty list and at a concrete two-element list. -/
theorem buildHiddenFilesCommitMessage_cases_witness :
    buildHiddenFilesCommitMessage [] = "chore: update hidden files" ∧
    buildHiddenFilesCommitMessage [FileDiffStat.mk ".zshrc" 1 0 1, FileDiffStat.mk ".env" 1 0 1] =
      "chore: update hidden files (" ++ String.intercalate ", "
        ((sortByPath [FileDiffStat.mk ".zshrc" 1 0 1, FileDiffStat.mk ".env" 1 0 1]).map
          formatFileName) ++ ")" :=
  ⟨(buildHiddenFilesCommitMessage_cases []).1 rfl,
   (buildHiddenFilesCommitMessage_cases
     [FileDiffStat.mk ".zshrc" 1 0 1, FileDiffStat.mk ".env" 1 0 1]).2 (by decide)⟩

/-- C1: while the `commitInProgress` guard is set, `performCommit` changes
no state and issues no collaborator call - its entire output is the
"already in progress" notice, and only for the manual trigger; and any
invocation that starts with the guard clear ends with the guard clear
again, whatever the collaborator answers or throws (the finally block
always clears it). -/
theorem performCommit_guard (engine : Option Collab) (settings : Settings)
    (st : PluginState) (triggeredBy : String) :
    (st.commitInProgress = true →
      performCommit engine settings st triggeredBy =
        (st, if triggeredBy = "manual" then [Effect.notice "Commit already in progress"]
          else [])) ∧
    (st.commitInProgress = false →
      (performCommit engine settings st triggeredBy).1.commitInProgress = false) := by
  constructor
  · intro h
    simp [performCommit, h]
  · intro h
    cases engine with
    | none => simp [performCommit, h]
    | some collab => simp [performCommit, h]

/-- Witness for C1: a guarded manual call answers only with the notice, and
an unguarded call against a throwing collaborator still ends with the guard
clear. -/
theorem performCommit_guard_witness :
    performCommit none ⟨5, CommitMode.batch, HiddenFilesHandling.group⟩ ⟨true⟩ "manual" =
      (⟨true⟩, [Effect.notice "Commit already in progress"]) ∧
    (performCommit (some ⟨Except.error "boom", fun s => s, []⟩)
      ⟨5, CommitMode.batch, HiddenFilesHandling.group⟩ ⟨false⟩ "interval").1.commitInProgress =
      false := by
  constructor
  · have h := (performCommit_guard none ⟨5, CommitMode.batch, HiddenFilesHandling.group⟩
      ⟨true⟩ "manual").1 rfl
    simpa using h
  · exact (performCommit_guard (some ⟨Except.error "boom", fun s => s, []⟩)
      ⟨5, CommitMode.batch, HiddenFilesHandling.group⟩ ⟨false⟩ "interval").2 rfl

/-- C5 as stated is refuted by a collaborator whose first stage+commit call
throws: with one regular and one hidden file, only the regular call is
issued even though the hidden subset is non-empty. -/
theorem performBatchCommit_separate_counterexample :
    (categorizeFiles [FileDiffStat.mk "a.md" 1 0 1, FileDiffStat.mk ".env" 1 0 1]).hidden ≠ [] ∧
    stageCalls (performBatchCommit ⟨Except.ok [], fun s => s, [some "boom"]⟩
        ⟨5, CommitMode.batch, HiddenFilesHandling.separate⟩
        [FileDiffStat.mk "a.md" 1 0 1, FileDiffStat.mk ".env" 1 0 1] "interval").1 =
      [Effect.stageAndCommitFiles ["a.md"] "chore: update a.md"] := by
  constructor
  · decide
  · decide

/-- C5 (amended: the hidden commit is issued iff the hidden subset is
non-empty and the regular commit, when there was one, did not throw - a
thrown regular commit aborts the invocation before the hidden commit).  In
separate mode the stage+commit calls of `performBatchCommit` are: the
regular call iff the regular subset is non-empty, followed by the hidden
call iff the hidden subset is non-empty and no earlier call threw; in
particular there are at most two calls and the regular call always comes
first. -/
theorem performBatchCommit_separate_calls (collab : Collab) (settings : Settings)
    (stats : List FileDiffStat) (triggeredBy : String)
    (hsep : settings.hiddenFilesHandling = HiddenFilesHandling.separate) :
    stageCalls (performBatchCommit collab settings stats triggeredBy).1 =
      (if 0 < (categorizeFiles stats).regular.length then
        [Effect.stageAndCommitFiles ((categorizeFiles stats).regular.map (fun f => f.path))
          (buildCommitMessage
            { files := (categorizeFiles stats).regular,
              maxFiles := settings.maxFilesInCommitMessage })]
      else []) ++
      (if 0 < (categorizeFiles stats).hidden.length ∧
          ((categorizeFiles stats).regular.length = 0 ∨ stageResult collab 0 = none) then
        [Effect.stageAndCommitFiles ((categorizeFiles stats).hidden.map (fun f => f.path))
          (buildHiddenFilesCommitMessage (categorizeFiles stats).hidden)]
      else []) ∧
    (stageCalls (performBatchCommit collab settings stats triggeredBy).1).length ≤ 2 := by
  have hnotice : ∀ m : String,
      List.filter Effect.isStageCall
        (if triggeredBy = "manual" then [Effect.notice m] else []) = [] := by
    intro m
    by_cases hm : triggeredBy = "manual" <;> simp [hm, Effect.isStageCall]
  have main : stageCalls (performBatchCommit collab settings stats triggeredBy).1 =
      (if 0 < (categorizeFiles stats).regular.length then
        [Effect.stageAndCommitFiles ((categorizeFiles stats).regular.map (fun f => f.path))
          (buildCommitMessage
            { files := (categorizeFiles stats).regular,
              maxFiles := settings.maxFilesInCommitMessage })]
      else []) ++
      (if 0 < (categorizeFiles stats).hidden.length ∧
          ((categorizeFiles stats).regular.length = 0 ∨ stageResult collab 0 = none) then
        [Effect.stageAndCommitFiles ((categorizeFiles stats).hidden.map (fun f => f.path))
          (buildHiddenFilesCommitMessage (categorizeFiles stats).hidden)]
      else []) := by
    unfold performBatchCommit
    rw [if_pos hsep]
    by_cases hr : 0 < (categorizeFiles stats).regular.length
    · cases h0 : stageResult collab 0 with
      | some e =>
        simp [stageCalls, Effect.isStageCall, hr, Nat.pos_iff_ne_zero.mp hr]
      | none =>
        by_cases hh : 0 < (categorizeFiles stats).hidden.length
        · cases h1 : stageResult collab 1 with
          | some e => simp [stageCalls, Effect.isStageCall, hr, hh]
          | none => simp [stageCalls, Effect.isStageCall, hr, hh, hnotice]
        · simp [stageCalls, Effect.isStageCall, hr, hh, hnotice]
    · have hr0 : (categorizeFiles stats).regular.length = 0 := by omega
      by_cases hh : 0 < (categorizeFiles stats).hidden.length
      · cases h0 : stageResult collab 0 with
        | some e => simp [stageCalls, Effect.isStageCall, hr, hh, hr0]
        | none => simp [stageCalls, Effect.isStageCall, hr, hh, hr0, hnotice]
      · simp [stageCalls, Effect.isStageCall, hr, hh, hnotice]
  refine ⟨main, ?_⟩
  rw [main]
  split_ifs <;> simp

/-- Witness for C5 (amended): two regular files and one hidden file with a
succeeding collaborator produce exactly the regular call followed by the
hidden call. -/
theorem performBatchCommit_separate_calls_witness :
    stageCalls (performBatchCommit ⟨Except.ok [], fun s => s, []⟩
        ⟨5, CommitMode.batch, HiddenFilesHandling.separate⟩
        [FileDiffStat.mk "a.md" 1 0 1, FileDiffStat.mk "b.md" 1 0 1,
          FileDiffStat.mk ".env" 1 0 1] "manual").1 =
      (if 0 < (categorizeFiles [FileDiffStat.mk "a.md" 1 0 1, FileDiffStat.mk "b.md" 1 0 1,
          FileDiffStat.mk ".env" 1 0 1]).regular.length then
        [Effect.stageAndCommitFiles
          ((categorizeFiles [FileDiffStat.mk "a.md" 1 0 1, FileDiffStat.mk "b.md" 1 0 1,
            FileDiffStat.mk ".env" 1 0 1]).regular.map (fun f => f.path))
          (buildCommitMessage
            { files := (categorizeFiles [FileDiffStat.mk "a.md" 1 0 1,
                FileDiffStat.mk "b.md" 1 0 1, FileDiffStat.mk ".env" 1 0 1]).regular,
              maxFiles := 5 })]
      else []) ++
      (if 0 < (categorizeFiles [FileDiffStat.mk "a.md" 1 0 1, FileDiffStat.mk "b.md" 1 0 1,
            FileDiffStat.mk ".env" 1 0 1]).hidden.length ∧
          ((categorizeFiles [FileDiffStat.mk "a.md" 1 0 1, FileDiffStat.mk "b.md" 1 0 1,
            FileDiffStat.mk ".env" 1 0 1]).regular.length = 0 ∨
            stageResult ⟨Except.ok [], fun s => s, []⟩ 0 = none) then
        [Effect.stageAndCommitFiles
          ((categorizeFiles [FileDiffStat.mk "a.md" 1 0 1, FileDiffStat.mk "b.md" 1 0 1,
            FileDiffStat.mk ".env" 1 0 1]).hidden.map (fun f => f.path))
          (buildHiddenFilesCommitMessage
            (categorizeFiles [FileDiffStat.mk "a.md" 1 0 1, FileDiffStat.mk "b.md" 1 0 1,
              FileDiffStat.mk ".env" 1 0 1]).hidden)]
      else []) :=
  (performBatchCommit_separate_calls ⟨Except.ok [], fun s => s, []⟩
    ⟨5, CommitMode.batch, HiddenFilesHandling.separate⟩
    [FileDiffStat.mk "a.md" 1 0 1, FileDiffStat.mk "b.md" 1 0 1,
      FileDiffStat.mk ".env" 1 0 1] "manual" rfl).1

/-- C9: every stat returned by the diff-stats query satisfies
netChange = additions - deletions; every untracked path contributes a stat
with zero additions and deletions; and every binary numstat line (a '-'
count field) parses to zero additions and deletions. -/
theorem getDiffStats_invariants (status : GitStatusModel) (diffOutput : String) :
    (∀ s ∈ getDiffStats status diffOutput, s.netChange = s.additions - s.deletions) ∧
    (∀ file ∈ status.not_added, untrackedStat file ∈ getDiffStats status diffOutput ∧
      (untrackedStat file).additions = 0 ∧ (untrackedStat file).deletions = 0) ∧
    (∀ line : String,
      ((jsSplit line '\t').getD 0 "" = "-" ∨ (jsSplit line '\t').getD 1 "" = "-") →
      (parseNumstatLine line).additions = 0 ∧ (parseNumstatLine line).deletions = 0) := by
  have hparse : ∀ line : String,
      (parseNumstatLine line).netChange =
        (parseNumstatLine line).additions - (parseNumstatLine line).deletions := by
    intro line
    simp only [parseNumstatLine]
    split <;> simp
  refine ⟨?_, ?_, ?_⟩
  · intro s hs
    unfold getDiffStats at hs
    cases htr : status.tracking with
    | true =>
      rw [htr] at hs
      simp at hs
      rcases hs with ⟨line, -, rfl⟩ | ⟨file, -, rfl⟩
      · exact hparse line
      · rfl
    | false =>
      rw [htr] at hs
      simp at hs
      rcases hs with ⟨file, -, rfl⟩
      rfl
  · intro file hfile
    refine ⟨?_, rfl, rfl⟩
    unfold getDiffStats
    cases htr : status.tracking with
    | true =>
      simp
      exact Or.inr ⟨file, hfile, rfl⟩
    | false =>
      simp
      exact ⟨file, hfile, rfl⟩
  · intro line h
    simp only [parseNumstatLine]
    split
    · exact ⟨rfl, rfl⟩
    · rename_i hcond
      rw [Bool.or_eq_true, decide_eq_true_eq, decide_eq_true_eq] at hcond
      exact absurd h hcond

/-- Witness for C9: a concrete status with one tracked modified file, one
binary file and one untracked file. -/
theorem getDiffStats_invariants_witness :
    untrackedStat "u.md" ∈ getDiffStats ⟨true, ["u.md"]⟩ "3\t1\ta.md" ∧
    (parseNumstatLine "-\t-\tbin.png").additions = 0 ∧
    (parseNumstatLine "-\t-\tbin.png").deletions = 0 :=
  ⟨((getDiffStats_invariants ⟨true, ["u.md"]⟩ "3\t1\ta.md").2.1 "u.md" (by decide)).1,
   (getDiffStats_invariants ⟨true, ["u.md"]⟩ "3\t1\ta.md").2.2 "-\t-\tbin.png" (by decide)⟩

/-- C10: `GitEngine.stageAndCommit` stages every pending working-tree
change with `git add -A`, so the recorded commit contains the full change
set no matter which paths the message names.  Consequently, in batch mode
with hiddenFilesHandling = never, a hidden file that
`filterFilesBySettings` dropped is absent from the committed message's file
list (it does not even survive the filter), yet the one
`stageAndCommit` call of the invocation commits every changed path,
the hidden one included. -/
theorem stageAndCommit_stages_everything (collab : Collab) (stats : List FileDiffStat)
    (s : FileDiffStat) (k : Nat) (triggeredBy : String)
    (hmem : s ∈ stats) (hhid : isHiddenPath s.path = true)
    (hdiff : collab.getDiffStats = Except.ok stats) :
    (s ∉ filterFilesBySettings collab ⟨k, CommitMode.batch, HiddenFilesHandling.never⟩ stats ∧
      s.path ∉ (filterFilesBySettings collab ⟨k, CommitMode.batch, HiddenFilesHandling.never⟩
        stats).map (fun f => f.path)) ∧
    (filterFilesBySettings collab ⟨k, CommitMode.batch, HiddenFilesHandling.never⟩ stats ≠ [] →
      Effect.stageAndCommitAll (buildCommitMessage
        { files := filterFilesBySettings collab ⟨k, CommitMode.batch, HiddenFilesHandling.never⟩
            stats,
          maxFiles := k }) ∈
        (performCommit (some collab) ⟨k, CommitMode.batch, HiddenFilesHandling.never⟩
          ⟨false⟩ triggeredBy).2) ∧
    (∀ message : String,
      (runGitCmds ⟨stats.map (fun f => f.path), []⟩ (GitEngine.stageAndCommit message)).2 =
        stats.map (fun f => f.path) ∧
      s.path ∈ (runGitCmds ⟨stats.map (fun f => f.path), []⟩
        (GitEngine.stageAndCommit message)).2) := by
  have hfiltered : filterFilesBySettings collab ⟨k, CommitMode.batch, HiddenFilesHandling.never⟩
      stats = stats.filter (fun stat => !isHiddenPath stat.path) := rfl
  refine ⟨⟨?_, ?_⟩, ?_, ?_⟩
  · rw [hfiltered]
    intro hin
    have := (List.mem_filter.mp hin).2
    rw [hhid] at this
    cases this
  · rw [hfiltered]
    intro hin
    rcases List.mem_map.mp hin with ⟨f, hf, hfp⟩
    have hfh := (List.mem_filter.mp hf).2
    rw [hfp, hhid] at hfh
    cases hfh
  · intro hne
    unfold performCommit
    simp only [if_false]
    unfold performCommitBody
    rw [hdiff]
    have hlen : ¬ (filterFilesBySettings collab
        ⟨k, CommitMode.batch, HiddenFilesHandling.never⟩ stats).length = 0 := by
      simpa [List.length_eq_zero] using hne
    simp only [hlen, if_false]
    unfold performBatchCommit
    have hns : (HiddenFilesHandling.never : HiddenFilesHandling) ≠
        HiddenFilesHandling.separate := by decide
    simp only [hns, if_false]
    cases h0 : stageResult collab 0 with
    | some e => simp
    | none => simp
  · intro message
    constructor
    · simp [runGitCmds, runGitCmd, GitEngine.stageAndCommit]
    · simp [runGitCmds, runGitCmd, GitEngine.stageAndCommit]
      exact ⟨s, hmem, rfl⟩

/-- Witness for C10: a concrete two-file change set whose hidden file is
dropped from the message but included in the committed path set. -/
theorem stageAndCommit_stages_everything_witness :
    FileDiffStat.mk ".env" 1 0 1 ∉
      filterFilesBySettings
        ⟨Except.ok [FileDiffStat.mk "a.md" 1 0 1, FileDiffStat.mk ".env" 1 0 1],
          fun s => s, []⟩
        ⟨5, CommitMode.batch, HiddenFilesHandling.never⟩
        [FileDiffStat.mk "a.md" 1 0 1, FileDiffStat.mk ".env" 1 0 1] ∧
    Effect.stageAndCommitAll (buildCommitMessage
        { files := filterFilesBySettings
            ⟨Except.ok [FileDiffStat.mk "a.md" 1 0 1, FileDiffStat.mk ".env" 1 0 1],
              fun s => s, []⟩
            ⟨5, CommitMode.batch, HiddenFilesHandling.never⟩
            [FileDiffStat.mk "a.md" 1 0 1, FileDiffStat.mk ".env" 1 0 1],
          maxFiles := 5 }) ∈
      (performCommit
        (some ⟨Except.ok [FileDiffStat.mk "a.md" 1 0 1, FileDiffStat.mk ".env" 1 0 1],
          fun s => s, []⟩)
        ⟨5, CommitMode.batch, HiddenFilesHandling.never⟩ ⟨false⟩ "interval").2 ∧
    ".env" ∈ (runGitCmds
        ⟨[FileDiffStat.mk "a.md" 1 0 1, FileDiffStat.mk ".env" 1 0 1].map (fun f => f.path), []⟩
        (GitEngine.stageAndCommit "any message")).2 := by
  have h := stageAndCommit_stages_everything
    ⟨Except.ok [FileDiffStat.mk "a.md" 1 0 1, FileDiffStat.mk ".env" 1 0 1], fun s => s, []⟩
    [FileDiffStat.mk "a.md" 1 0 1, FileDiffStat.mk ".env" 1 0 1]
    (FileDiffStat.mk ".env" 1 0 1) 5 "interval" (by decide) (by decide) rfl
  exact ⟨h.1.1, h.2.1 (by decide), (h.2.2 "any message").2⟩
